import Mathlib

/-!
Verification of the tiny8 CHIP-8 interpreter (`include/tiny8.h`) against its
natural-language specification.

The interpreter state is embedded shallowly: the `uint8_t` register file,
memory, display and timers become `Nat`-valued functions/fields with explicit
truncation (`% 256`, `&&& 0xff`, `% 65536`) exactly where the C++ integer
types truncate.  Each instruction body (the lambdas registered with
`add_instruction` in the `interpreter` constructor) becomes a state
transformer.  Instruction operands `x`, `y`, `n`, `nn` are passed already
decoded, as the bodies read them from `m_state`.
-/

/-- Display constants from the source (`c_displayWidth`, `c_displayHeight`). -/
def c_displayWidth : Nat := 64

/-- Display height, 32 rows. -/
def c_displayHeight : Nat := 32

/-- `c_fontStartAddress` from the source: the font region starts at 0. -/
def c_fontStartAddress : Nat := 0

/-- `c_fontset` from the source: 16 glyphs of 5 bytes each. -/
def c_fontset : List Nat :=
  [0xF0, 0x90, 0x90, 0x90, 0xF0,
   0x20, 0x60, 0x20, 0x20, 0x70,
   0xF0, 0x10, 0xF0, 0x80, 0xF0,
   0xF0, 0x10, 0xF0, 0x10, 0xF0,
   0x90, 0x90, 0xF0, 0x10, 0x10,
   0xF0, 0x80, 0xF0, 0x10, 0xF0,
   0xF0, 0x80, 0xF0, 0x90, 0xF0,
   0xF0, 0x10, 0x20, 0x40, 0x40,
   0xF0, 0x90, 0xF0, 0x90, 0xF0,
   0xF0, 0x90, 0xF0, 0x10, 0xF0,
   0xF0, 0x90, 0xF0, 0x90, 0x90,
   0xE0, 0x90, 0xE0, 0x90, 0xE0,
   0xF0, 0x80, 0x80, 0x80, 0xF0,
   0xE0, 0x90, 0x90, 0x90, 0xE0,
   0xF0, 0x80, 0xF0, 0x80, 0xF0,
   0xF0, 0x80, 0xF0, 0x80, 0x80]

/-- `flags::shift_legacy` (1 << 0). -/
def shift_legacy : Nat := 1

/-- `flags::store_load_legacy` (1 << 1). -/
def store_load_legacy : Nat := 2

/-- `flags::jump_offset_legacy` (1 << 2). -/
def jump_offset_legacy : Nat := 4

/-- `flags::logical_legacy` (1 << 3). -/
def logical_legacy : Nat := 8

/-- `flags::disp_sync_legacy` (1 << 4). -/
def disp_sync_legacy : Nat := 16

/-- `flags::draw_legacy` (1 << 5). -/
def draw_legacy : Nat := 32

/-- `flags::all_legacy`: the or of the six legacy bits. -/
def all_legacy : Nat :=
  shift_legacy ||| store_load_legacy ||| jump_offset_legacy |||
  logical_legacy ||| disp_sync_legacy ||| draw_legacy

/-- `flags::chip8_original = all_legacy`. -/
def chip8_original : Nat := all_legacy

/-- `flags::chip8_schip = draw_legacy`. -/
def chip8_schip : Nat := draw_legacy

/-- `flags::chip8_xochip = store_load_legacy | jump_offset_legacy | shift_legacy`. -/
def chip8_xochip : Nat := store_load_legacy ||| jump_offset_legacy ||| shift_legacy

/-- The C++ test `m_flags & flags::bit` (nonzero means set). -/
def hasFlag (f mask : Nat) : Bool := f &&& mask != 0

/-- The interpreter state touched by the verified instructions: the 16
`uint8_t` registers `m_v` (as a total function on indices, only 0..15 are
used), the `uint16_t` index register and program counter, main memory
`m_data`, the display framebuffer `m_data` of `display` (indexed
`row * 64 + col`), and the two timers. -/
structure Chip8State where
  v : Nat → Nat
  index : Nat
  pc : Nat
  mem : Nat → Nat
  disp : Nat → Nat
  delay : Nat
  sound : Nat

/-- `interpreter::update_flag`: write `value` into register 15. -/
def update_flag (s : Chip8State) (value : Nat) : Chip8State :=
  { s with v := Function.update s.v 15 value }

/-- Write register `i` (the C++ `m_registers.m_v[i] = val`). -/
def setV (s : Chip8State) (i val : Nat) : Chip8State :=
  { s with v := Function.update s.v i val }

/-- Opcode `0x7XNN`: `m_v[x] += nn` (`uint8_t` addition wraps mod 256). -/
def exec_7xnn (x nn : Nat) (s : Chip8State) : Chip8State :=
  setV s x ((s.v x + nn) % 256)

/-- Opcode `0x8XY1`: `m_v[x] = m_v[x] | m_v[y]; if (m_flags & logical_legacy) update_flag(0);`. -/
def exec_8xy1 (f x y : Nat) (s : Chip8State) : Chip8State :=
  let s1 := setV s x (s.v x ||| s.v y)
  if hasFlag f logical_legacy then update_flag s1 0 else s1

/-- Opcode `0x8XY2`: bitwise and, same flag handling as `0x8XY1`. -/
def exec_8xy2 (f x y : Nat) (s : Chip8State) : Chip8State :=
  let s1 := setV s x (s.v x &&& s.v y)
  if hasFlag f logical_legacy then update_flag s1 0 else s1

/-- Opcode `0x8XY3`: bitwise xor, same flag handling as `0x8XY1`. -/
def exec_8xy3 (f x y : Nat) (s : Chip8State) : Chip8State :=
  let s1 := setV s x (s.v x ^^^ s.v y)
  if hasFlag f logical_legacy then update_flag s1 0 else s1

/-- Opcode `0x8XY4`: `uint16_t sum = v[x] + v[y]; v[x] = sum & 0xff; update_flag(sum > 255);`. -/
def exec_8xy4 (x y : Nat) (s : Chip8State) : Chip8State :=
  let sum := s.v x + s.v y
  let s1 := setV s x (sum &&& 0xff)
  update_flag s1 (if sum > 255 then 1 else 0)

/-- Opcode `0x8XY5`: `int16_t sub = v[x] - v[y]; v[x] = sub & 0xff; update_flag(sub > 0);`.
The two's-complement `sub & 0xff` is the Euclidean `sub % 256`. -/
def exec_8xy5 (x y : Nat) (s : Chip8State) : Chip8State :=
  let sub : Int := (s.v x : Int) - (s.v y : Int)
  let s1 := setV s x ((sub % 256).toNat)
  update_flag s1 (if sub > 0 then 1 else 0)

/-- Opcode `0x8XY6`: optional legacy `v[x] = v[y]`, then `prev = v[x]; v[x] >>= 1; update_flag(prev & 1);`. -/
def exec_8xy6 (f x y : Nat) (s : Chip8State) : Chip8State :=
  let s0 := if hasFlag f shift_legacy then setV s x (s.v y) else s
  let prev := s0.v x
  let s1 := setV s0 x (prev >>> 1)
  update_flag s1 (prev &&& 1)

/-- Opcode `0x8XY7`: `int16_t sub = v[y] - v[x]; v[x] = sub & 0xff; update_flag(sub > 0);`. -/
def exec_8xy7 (x y : Nat) (s : Chip8State) : Chip8State :=
  let sub : Int := (s.v y : Int) - (s.v x : Int)
  let s1 := setV s x ((sub % 256).toNat)
  update_flag s1 (if sub > 0 then 1 else 0)

/-- Opcode `0x8XYE`: optional legacy `v[x] = v[y]`, then
`prev = v[x]; v[x] <<= 1; update_flag((prev >> 7) & 1);` (`uint8_t` shift truncates). -/
def exec_8xye (f x y : Nat) (s : Chip8State) : Chip8State :=
  let s0 := if hasFlag f shift_legacy then setV s x (s.v y) else s
  let prev := s0.v x
  let s1 := setV s0 x ((prev <<< 1) &&& 0xff)
  update_flag s1 ((prev >>> 7) &&& 1)

/-- Opcode `0xFX29`: `m_registers.m_index += m_memory.m_font[m_state.m_x];`.
`m_font` aliases `&m_data[c_fontStartAddress]`, and the subscript is the
decoded `x` nibble itself; `m_index` is `uint16_t`. -/
def exec_fx29 (x : Nat) (s : Chip8State) : Chip8State :=
  { s with index := (s.index + s.mem (c_fontStartAddress + x)) % 65536 }

/-- Opcode `0xFX55`: `memcpy(&m_data[m_index], m_v, x + 1)`, then under
`store_load_legacy` a single `m_index++` (`uint16_t` wrap). -/
def exec_fx55 (f x : Nat) (s : Chip8State) : Chip8State :=
  let m := fun a => if s.index ≤ a ∧ a < s.index + (x + 1) then s.v (a - s.index) else s.mem a
  let s1 := { s with mem := m }
  if hasFlag f store_load_legacy then { s1 with index := (s1.index + 1) % 65536 } else s1

/-- Opcode `0xFX65`: `memcpy(m_v, &m_data[m_index], x + 1)`, then under
`store_load_legacy` a single `m_index++` (`uint16_t` wrap). -/
def exec_fx65 (f x : Nat) (s : Chip8State) : Chip8State :=
  let vv := fun i => if i ≤ x then s.mem (s.index + i) else s.v i
  let s1 := { s with v := vv }
  if hasFlag f store_load_legacy then { s1 with index := (s1.index + 1) % 65536 } else s1

/-- The sprite bit for column `x'` of a sprite row byte: the source's
`(sprite & (1 << (7 - x))) != 0`. -/
def spriteBit (sprite x' : Nat) : Bool := (sprite &&& (1 <<< (7 - x'))) != 0

/-- The display cell written for column `x'`: the source's
`display_data_index = coordyy * c_displayWidth + coordxx` with
`coordxx = (coordx + x) & (c_displayWidth - 1)`. -/
def cellIndex (coordyy coordx x' : Nat) : Nat :=
  coordyy * c_displayWidth + ((coordx + x') &&& (c_displayWidth - 1))

/-- The wrapped row coordinate: the source's `coordyy &= (c_displayHeight - 1)`. -/
def rowCoord (coordy y' : Nat) : Nat := (coordy + y') &&& (c_displayHeight - 1)

/-- One iteration of the inner (column) loop of the `0xDXYN` body: the
accumulator carries the display and the `any_invalidated` flag.  Under
`draw_legacy` a column whose coordinate satisfies `coordxx > c_displayWidth`
is skipped (`continue`); otherwise the cell is XORed with the sprite bit and
a 1-to-0 transition is recorded. -/
def drawCellStep (f coordyy coordx sprite : Nat) (acc : (Nat → Nat) × Bool)
    (x' : Nat) : (Nat → Nat) × Bool :=
  if hasFlag f draw_legacy && decide (coordx + x' > c_displayWidth) then acc
  else
    let idx := cellIndex coordyy coordx x'
    let prev := acc.1 idx
    let nv := prev ^^^ (if spriteBit sprite x' then 1 else 0)
    (Function.update acc.1 idx nv, acc.2 || (decide (prev ≠ 0) && decide (nv = 0)))

/-- One iteration of the outer (row) loop of the `0xDXYN` body.  Under
`draw_legacy` a row whose coordinate satisfies `coordyy > c_displayHeight`
is skipped (`continue`); otherwise the row's sprite byte is read from memory
at `m_index + y` and blitted across the 8 columns. -/
def drawRowStep (f coordx coordy index : Nat) (mem : Nat → Nat)
    (acc : (Nat → Nat) × Bool) (y' : Nat) : (Nat → Nat) × Bool :=
  if hasFlag f draw_legacy && decide (coordy + y' > c_displayHeight) then acc
  else
    (List.range 8).foldl
      (drawCellStep f (rowCoord coordy y') coordx (mem (index + y'))) acc

/-- The starting column: the source's `coordx = v[x] & (c_displayWidth - 1)`. -/
def drawCoordX (s : Chip8State) (x : Nat) : Nat := s.v x &&& (c_displayWidth - 1)

/-- The starting row: the source's `coordy = v[y] & (c_displayHeight - 1)`. -/
def drawCoordY (s : Chip8State) (y : Nat) : Nat := s.v y &&& (c_displayHeight - 1)

/-- Opcode `0xDXYN`: blit `n` sprite rows read at the index register onto the
display by XOR, then `update_flag(any_invalidated)`. -/
def execDraw (f x y n : Nat) (s : Chip8State) : Chip8State :=
  let r := (List.range n).foldl
    (drawRowStep f (drawCoordX s x) (drawCoordY s y) s.index s.mem) (s.disp, false)
  update_flag { s with disp := r.1 } (if r.2 then 1 else 0)

/-- Whether the column `x'` is processed (not skipped by the legacy clip). -/
def colUsed (f coordx x' : Nat) : Bool :=
  !(hasFlag f draw_legacy && decide (coordx + x' > c_displayWidth))

/-- Whether the row `y'` is processed (not skipped by the legacy clip). -/
def rowUsed (f coordy y' : Nat) : Bool :=
  !(hasFlag f draw_legacy && decide (coordy + y' > c_displayHeight))

/-- Whether one blitted row toggles the display cell `idx`. -/
def rowHit (f coordyy coordx sprite idx : Nat) : Bool :=
  (List.range 8).any fun x' =>
    colUsed f coordx x' && decide (cellIndex coordyy coordx x' = idx) && spriteBit sprite x'

/-- Whether the whole draw toggles the display cell `idx`. -/
def drawHit (f coordx coordy index n : Nat) (mem : Nat → Nat) (idx : Nat) : Bool :=
  (List.range n).any fun y' =>
    rowUsed f coordy y' && rowHit f (rowCoord coordy y') coordx (mem (index + y')) idx

/-- Whether one blitted row hits a cell that is currently on in display `d`. -/
def rowCollide (f coordyy coordx sprite : Nat) (d : Nat → Nat) : Bool :=
  (List.range 8).any fun x' =>
    colUsed f coordx x' && spriteBit sprite x' &&
      decide (d (cellIndex coordyy coordx x') = 1)

/-- Whether the whole draw turns some lit cell off (the collision condition). -/
def drawCollide (f coordx coordy index n : Nat) (mem : Nat → Nat) (d : Nat → Nat) : Bool :=
  (List.range n).any fun y' =>
    rowUsed f coordy y' && rowCollide f (rowCoord coordy y') coordx (mem (index + y')) d

/-- Modelled from the spec for claim C3: under draw legacy, a sprite row or
column whose computed coordinate exceeds the display bound (32 for rows, 64
for columns) is skipped, and the remaining ones land at the coordinate
wrapped modulo the display size. -/
def clippedHitSpec (coordx coordy index n : Nat) (mem : Nat → Nat) (idx : Nat) : Bool :=
  (List.range n).any fun y' =>
    decide (coordy + y' ≤ c_displayHeight) &&
    ((List.range 8).any fun x' =>
      decide (coordx + x' ≤ c_displayWidth) &&
      decide (((coordy + y') % c_displayHeight) * c_displayWidth
        + (coordx + x') % c_displayWidth = idx) &&
      spriteBit (mem (index + y')) x')

/-- The timer-decay tail of `interpreter::advance`.  The wall-clock test
`elapsed_ms >= 16.66f` is abstracted into the boolean `tick`; when it holds,
each timer is decremented only if strictly positive. -/
def timers_advance (tick : Bool) (s : Chip8State) : Chip8State :=
  if tick then
    { s with delay := if s.delay > 0 then s.delay - 1 else s.delay,
             sound := if s.sound > 0 then s.sound - 1 else s.sound }
  else s

/-- Iterated steps of timer decay, one `tick` decision per `advance` call. -/
def timers_run (ticks : List Bool) (s : Chip8State) : Chip8State :=
  ticks.foldl (fun s' t => timers_advance t s') s

/-- A state with everything zeroed, program counter at the ROM start. -/
def zeroState : Chip8State :=
  { v := fun _ => 0, index := 0, pc := 0x200,
    mem := fun _ => 0, disp := fun _ => 0, delay := 0, sound := 0 }

/-- Memory as the constructor leaves it before a ROM is loaded: the font
bytes at addresses 0..79, zero elsewhere. -/
def fontMem : Nat → Nat := fun a => c_fontset.getD a 0

/-- The font glyph offset the spec describes for `0xFX29`: glyphs are 5
bytes each starting at `c_fontStartAddress`.  Modelled from the spec's words
(the source has no such computation). -/
def fontGlyphOffset (digit : Nat) : Nat := c_fontStartAddress + 5 * digit

/-- Concrete state for the store/load index-increment bug: registers hold
their own indices, the index register points at 0x300. -/
def c1_state : Chip8State :=
  { zeroState with v := fun i => i % 256, index := 0x300 }

/-- Concrete state for the font-address claim: register 0 holds 1, font
memory intact, index at 100. -/
def c2_state : Chip8State :=
  { zeroState with v := fun i => if i = 0 then 1 else 0, index := 100, mem := fontMem }

/-- Concrete state with register 15 holding 1 and the rest 0. -/
def c4_state : Chip8State :=
  { zeroState with v := fun i => if i = 15 then 1 else 0 }

/-- Concrete state with register 15 holding 5 and register 0 holding 3. -/
def c5_state : Chip8State :=
  { zeroState with v := fun i => if i = 15 then 5 else if i = 0 then 3 else 0 }

/-- Concrete state with register 0 holding 4 and the rest 0. -/
def c7_state : Chip8State :=
  { zeroState with v := fun i => if i = 0 then 4 else 0 }

/-- Concrete state with register 0 holding 1 and the rest 0. -/
def c8_state : Chip8State :=
  { zeroState with v := fun i => if i = 0 then 1 else 0 }

/-- Concrete state for the draw-clipping claim: the sprite starts at column
60 so its right columns cross the display bound; memory holds solid rows. -/
def c3_state : Chip8State :=
  { zeroState with v := fun i => if i = 0 then 60 else 0, mem := fun _ => 0xFF }

/-- Concrete state for the draw-collision claim: a single sprite row `0x80`
drawn at the blank display's origin. -/
def c6_state : Chip8State :=
  { zeroState with mem := fun _ => 0x80 }

theorem hasFlag_store_load : hasFlag store_load_legacy store_load_legacy = true := by decide

theorem and_63_eq_mod (n : Nat) : n &&& 63 = n % 64 := Nat.and_pow_two_sub_one_eq_mod n 6

theorem and_31_eq_mod (n : Nat) : n &&& 31 = n % 32 := Nat.and_pow_two_sub_one_eq_mod n 5

theorem and_255_eq_mod (n : Nat) : n &&& 255 = n % 256 := Nat.and_pow_two_sub_one_eq_mod n 8

/-- Claim C1 (code-bug evidence): with the store/load legacy flag set and
`x = 1`, both `0xFX55` and `0xFX65` increment the index register by exactly
1 — not by `x + 1 = 2` as the legacy behavior requires — even though the
registers themselves are copied correctly. -/
theorem c1_store_load_index_bug :
    (exec_fx55 store_load_legacy 1 c1_state).index = 0x301 ∧
    (exec_fx65 store_load_legacy 1 c1_state).index = 0x301 ∧
    c1_state.index + (1 + 1) = 0x302 ∧
    (exec_fx55 store_load_legacy 1 c1_state).mem 0x300 = c1_state.v 0 ∧
    (exec_fx55 store_load_legacy 1 c1_state).mem 0x301 = c1_state.v 1 ∧
    (exec_fx65 store_load_legacy 1 c1_state).v 0 = c1_state.mem 0x300 ∧
    (0x301 : Nat) ≠ 0x302 := by
  refine ⟨by decide, by decide, by decide, by decide, by decide, by decide, by decide⟩

/-- Claim C2 (counterexample): in the post-construction state with register 0
holding 1 and the index register at 100, `0xF029` sets the index to
`100 + 0xF0 = 340` (it adds the font bitmap byte at offset `x = 0`), while the
claim predicts `100 + fontGlyphOffset 1 = 105`. -/
theorem c2_counterexample :
    (exec_fx29 0 c2_state).index = 340 ∧
    c2_state.index + fontGlyphOffset (c2_state.v 0 % 16) = 105 ∧
    (340 : Nat) ≠ 105 := by
  refine ⟨by decide, by decide, by decide⟩

/-- Claim C2 (amended): `0xFX29` adds to the index register (rather than
assigning) the byte stored in the font region of memory at offset `x` — `x`
being the decoded second opcode nibble, not register x's value, and the byte
being the glyph bitmap byte `c_fontset[x]`, not a glyph offset. -/
theorem c2_fx29_additive (x : Nat) (s : Chip8State) (hx : x < 16)
    (hfont : ∀ a, a < 80 → s.mem a = c_fontset.getD a 0)
    (hidx : s.index + 255 < 65536) :
    (exec_fx29 x s).index = s.index + c_fontset.getD x 0 := by
  have hmem : s.mem (c_fontStartAddress + x) = c_fontset.getD x 0 := by
    have h := hfont (c_fontStartAddress + x) (by simp only [c_fontStartAddress]; omega)
    simpa [c_fontStartAddress] using h
  have hbound : c_fontset.getD x 0 ≤ 255 := by
    interval_cases x <;> decide
  show (s.index + s.mem (c_fontStartAddress + x)) % 65536 = s.index + c_fontset.getD x 0
  rw [hmem, Nat.mod_eq_of_lt (by omega)]

/-- Witness for C2: the amended theorem applied at the concrete
post-construction state. -/
theorem c2_witness :
    (exec_fx29 0 c2_state).index = c2_state.index + c_fontset.getD 0 0 :=
  c2_fx29_additive 0 c2_state (by decide) (fun _ _ => rfl) (by decide)

/-- Claim C4 (counterexample): add-immediate `0x70` with `x = 0`, `nn = 1`
on a state whose flag register holds 1: the sum `0 + 1` does not exceed 255,
so the claim demands a final flag of 0, but the code leaves the flag at 1. -/
theorem c4_counterexample :
    c4_state.v 0 + 1 ≤ 255 ∧
    (exec_7xnn 0 1 c4_state).v 15 = 1 ∧
    (1 : Nat) ≠ 0 := by
  refine ⟨by decide, by decide, by decide⟩

/-- Claim C4 (amended): add-with-carry `0x8XY4` sets the flag register to 1
iff the 9-bit sum exceeds 255 and, when `x ≠ 15`, leaves the sum mod 256 in
register x (for `x = 15` the flag write overwrites the sum); add-immediate
`0x70` writes the sum mod 256 into register x and, when `x ≠ 15`, leaves the
flag register unmodified. -/
theorem c4_add_ops (x y nn : Nat) (s : Chip8State)
    (hx : x < 16) (hy : y < 16)
    (hvx : s.v x < 256) (hvy : s.v y < 256) (hnn : nn < 256) :
    ((exec_8xy4 x y s).v 15 = if s.v x + s.v y > 255 then 1 else 0) ∧
    (x ≠ 15 → (exec_8xy4 x y s).v x = (s.v x + s.v y) % 256) ∧
    ((exec_7xnn x nn s).v x = (s.v x + nn) % 256) ∧
    (x ≠ 15 → (exec_7xnn x nn s).v 15 = s.v 15) := by
  refine ⟨?_, ?_, ?_, ?_⟩
  · simp [exec_8xy4, setV, update_flag, Function.update_apply]
  · intro hne
    simp [exec_8xy4, setV, update_flag, Function.update_apply, hne, and_255_eq_mod]
  · simp [exec_7xnn, setV, Function.update_apply]
  · intro hne
    simp [exec_7xnn, setV, Function.update_apply, Ne.symm hne]

/-- Witness for C4: the amended theorem applied at the all-zero state. -/
theorem c4_witness :
    (exec_8xy4 0 1 zeroState).v 0 = (zeroState.v 0 + zeroState.v 1) % 256 :=
  (c4_add_ops 0 1 7 zeroState (by decide) (by decide) (by decide) (by decide)
    (by decide)).2.1 (by decide)

/-- Claim C5 (counterexample): subtract `0x8F05` (so `x = 15`) with
`v15 = 5`, `v0 = 3`: the difference 2 is strictly positive and its 8-bit
truncation is 2, so the claim demands register 15 to hold the truncation 2,
but the code leaves only the flag value 1 there. -/
theorem c5_counterexample :
    ((5 : Int) - 3 > 0) ∧
    (exec_8xy5 15 0 c5_state).v 15 = 1 ∧
    (((5 : Int) - 3) % 256).toNat = 2 ∧
    (1 : Nat) ≠ 2 := by
  refine ⟨by decide, by decide, by decide, by decide⟩

/-- Claim C5 (amended): `0x8XY5` and `0x8XY7` set the flag register to 1 iff
the mathematical difference is strictly positive (0 when it is zero), and,
when `x ≠ 15`, write the 8-bit truncation of the signed difference into
register x (for `x = 15` the flag write overwrites the truncation). -/
theorem c5_sub_ops (x y : Nat) (s : Chip8State) (hx : x < 16) (hy : y < 16)
    (hvx : s.v x < 256) (hvy : s.v y < 256) :
    ((exec_8xy5 x y s).v 15 = if s.v y < s.v x then 1 else 0) ∧
    (x ≠ 15 → (exec_8xy5 x y s).v x = (256 + s.v x - s.v y) % 256) ∧
    ((exec_8xy7 x y s).v 15 = if s.v x < s.v y then 1 else 0) ∧
    (x ≠ 15 → (exec_8xy7 x y s).v x = (256 + s.v y - s.v x) % 256) := by
  have hcond5 : ((s.v x : Int) - (s.v y : Int) > 0) = (s.v y < s.v x) := by
    apply propext; omega
  have hcond7 : ((s.v y : Int) - (s.v x : Int) > 0) = (s.v x < s.v y) := by
    apply propext; omega
  have hval5 : ((((s.v x : Int) - (s.v y : Int)) % 256).toNat) = (256 + s.v x - s.v y) % 256 := by
    omega
  have hval7 : ((((s.v y : Int) - (s.v x : Int)) % 256).toNat) = (256 + s.v y - s.v x) % 256 := by
    omega
  refine ⟨?_, ?_, ?_, ?_⟩
  · simp [exec_8xy5, setV, update_flag, Function.update_apply, hcond5]
  · intro hne
    simp [exec_8xy5, setV, update_flag, Function.update_apply, hne, hval5]
  · simp [exec_8xy7, setV, update_flag, Function.update_apply, hcond7]
  · intro hne
    simp [exec_8xy7, setV, update_flag, Function.update_apply, hne, hval7]

/-- Witness for C5: the amended theorem applied at the all-zero state. -/
theorem c5_witness :
    (exec_8xy5 0 1 zeroState).v 15 = if zeroState.v 1 < zeroState.v 0 then 1 else 0 :=
  (c5_sub_ops 0 1 zeroState (by decide) (by decide) (by decide) (by decide)).1

/-- Claim C7 (counterexample): shift-right `0x8F06` (so `x = 15`) with the
shift-legacy flag set and `v0 = 4`: the claim demands that register 15 first
receive `v0 = 4` and then be shifted to 2, but the code's final flag write
leaves register 15 holding 0 (the bit shifted out of 4). -/
theorem c7_counterexample :
    hasFlag shift_legacy shift_legacy = true ∧
    (exec_8xy6 shift_legacy 15 0 c7_state).v 15 = 0 ∧
    c7_state.v 0 / 2 = 2 ∧
    (0 : Nat) ≠ 2 := by
  refine ⟨by decide, by decide, by decide, by decide⟩

/-- Claim C7 (amended): with shift legacy set the shifted value is register
y's (it is first assigned into register x), otherwise register x's own; the
flag register receives the bit shifted out of that pre-shift value (LSB for
right shift, MSB for left shift), and, when `x ≠ 15`, register x receives the
shifted value (for `x = 15` the flag write overwrites it).  The original and
XO-CHIP presets set shift legacy; the S-CHIP preset does not. -/
theorem c7_shift_ops (f x y : Nat) (s : Chip8State) (hx : x < 16) (hy : y < 16)
    (hvx : s.v x < 256) (hvy : s.v y < 256) :
    ((exec_8xy6 f x y s).v 15 = (if hasFlag f shift_legacy then s.v y else s.v x) % 2) ∧
    (x ≠ 15 → (exec_8xy6 f x y s).v x = (if hasFlag f shift_legacy then s.v y else s.v x) / 2) ∧
    ((exec_8xye f x y s).v 15 = (if hasFlag f shift_legacy then s.v y else s.v x) / 128) ∧
    (x ≠ 15 → (exec_8xye f x y s).v x =
      ((if hasFlag f shift_legacy then s.v y else s.v x) * 2) % 256) ∧
    hasFlag chip8_original shift_legacy = true ∧
    hasFlag chip8_xochip shift_legacy = true ∧
    hasFlag chip8_schip shift_legacy = false := by
  have hsrc : (if hasFlag f shift_legacy then s.v y else s.v x) < 256 := by
    split <;> assumption
  have hdiv : ∀ m : Nat, m < 256 → (m >>> 7) &&& 1 = m / 128 := by
    intro m hm
    rw [Nat.shiftRight_eq_div_pow]
    have : m / 2 ^ 7 < 2 := by omega
    rw [Nat.and_one_is_mod]
    omega
  refine ⟨?_, ?_, ?_, ?_, by decide, by decide, by decide⟩
  · by_cases hleg : hasFlag f shift_legacy <;>
      simp [exec_8xy6, setV, update_flag, Function.update_apply, hleg, Nat.and_one_is_mod]
  · intro hne
    by_cases hleg : hasFlag f shift_legacy <;>
      simp [exec_8xy6, setV, update_flag, Function.update_apply, hleg, hne,
        Nat.shiftRight_eq_div_pow]
  · by_cases hleg : hasFlag f shift_legacy <;>
      simp only [exec_8xye, setV, update_flag, Function.update_apply, hleg,
        if_true, if_false, Function.update_same] <;>
      simp [Function.update_apply, hdiv _ hvy, hdiv _ hvx]
  · intro hne
    by_cases hleg : hasFlag f shift_legacy <;>
      simp [exec_8xye, setV, update_flag, Function.update_apply, hleg, hne,
        Nat.shiftLeft_eq, and_255_eq_mod]

/-- Witness for C7: the amended theorem applied at the concrete state. -/
theorem c7_witness :
    (exec_8xy6 shift_legacy 1 0 c7_state).v 1 =
      (if hasFlag shift_legacy shift_legacy then c7_state.v 0 else c7_state.v 1) / 2 :=
  (c7_shift_ops shift_legacy 1 0 c7_state (by decide) (by decide) (by decide)
    (by decide)).2.1 (by decide)

/-- Claim C8 (counterexample): OR `0x8F01` (so `x = 15`) under the XO-CHIP
preset with `v15 = 0`, `v0 = 1`: the claim demands the flag register be left
unmodified (0), but the OR result 1 is written into register 15. -/
theorem c8_counterexample :
    hasFlag chip8_xochip logical_legacy = false ∧
    (exec_8xy1 chip8_xochip 15 0 c8_state).v 15 = 1 ∧
    c8_state.v 15 = 0 ∧
    (1 : Nat) ≠ 0 := by
  refine ⟨by decide, by decide, by decide, by decide⟩

/-- Claim C8 (amended): whenever the logical-legacy bit is set (as in the
original preset), OR/AND/XOR finish by zeroing the flag register; when it is
unset (as in the S-CHIP and XO-CHIP presets) and `x ≠ 15`, the flag register
is left unmodified; in both cases for `x ≠ 15` register x receives the
bitwise result. -/
theorem c8_logical_ops (f x y : Nat) (s : Chip8State) :
    (hasFlag f logical_legacy = true →
      (exec_8xy1 f x y s).v 15 = 0 ∧ (exec_8xy2 f x y s).v 15 = 0 ∧
      (exec_8xy3 f x y s).v 15 = 0) ∧
    (x ≠ 15 →
      (exec_8xy1 f x y s).v x = s.v x ||| s.v y ∧
      (exec_8xy2 f x y s).v x = s.v x &&& s.v y ∧
      (exec_8xy3 f x y s).v x = s.v x ^^^ s.v y) ∧
    (hasFlag f logical_legacy = false → x ≠ 15 →
      (exec_8xy1 f x y s).v 15 = s.v 15 ∧
      (exec_8xy2 f x y s).v 15 = s.v 15 ∧
      (exec_8xy3 f x y s).v 15 = s.v 15) ∧
    hasFlag chip8_original logical_legacy = true ∧
    hasFlag chip8_schip logical_legacy = false ∧
    hasFlag chip8_xochip logical_legacy = false := by
  refine ⟨?_, ?_, ?_, by decide, by decide, by decide⟩
  · intro hleg
    refine ⟨?_, ?_, ?_⟩ <;>
      simp [exec_8xy1, exec_8xy2, exec_8xy3, setV, update_flag, Function.update_apply, hleg]
  · intro hne
    by_cases hleg : hasFlag f logical_legacy <;>
      refine ⟨?_, ?_, ?_⟩ <;>
        simp [exec_8xy1, exec_8xy2, exec_8xy3, setV, update_flag,
          Function.update_apply, hleg, hne]
  · intro hleg hne
    refine ⟨?_, ?_, ?_⟩ <;>
      simp [exec_8xy1, exec_8xy2, exec_8xy3, setV, update_flag,
        Function.update_apply, hleg, Ne.symm hne]

/-- Witness for C8: the amended theorem applied under the XO-CHIP and
original presets at the concrete state. -/
theorem c8_witness :
    (exec_8xy1 chip8_xochip 0 1 c8_state).v 15 = c8_state.v 15 ∧
    (exec_8xy1 chip8_original 0 1 c8_state).v 15 = 0 :=
  ⟨((c8_logical_ops chip8_xochip 0 1 c8_state).2.2.1 (by decide) (by decide)).1,
   ((c8_logical_ops chip8_original 0 1 c8_state).1 (by decide)).1⟩

theorem timers_advance_delay_step (t : Bool) (s : Chip8State) :
    (timers_advance t s).delay = s.delay ∨
      (0 < s.delay ∧ (timers_advance t s).delay + 1 = s.delay) := by
  cases t <;> simp [timers_advance] <;> split <;> omega

theorem timers_advance_sound_step (t : Bool) (s : Chip8State) :
    (timers_advance t s).sound = s.sound ∨
      (0 < s.sound ∧ (timers_advance t s).sound + 1 = s.sound) := by
  cases t <;> simp [timers_advance] <;> split <;> omega

theorem timers_run_delay_le (ticks : List Bool) (s : Chip8State) :
    (timers_run ticks s).delay ≤ s.delay := by
  induction ticks generalizing s with
  | nil => exact Nat.le_refl _
  | cons t ts ih =>
    have hstep := timers_advance_delay_step t s
    have := ih (timers_advance t s)
    simp only [timers_run, List.foldl_cons] at *
    omega

theorem timers_run_sound_le (ticks : List Bool) (s : Chip8State) :
    (timers_run ticks s).sound ≤ s.sound := by
  induction ticks generalizing s with
  | nil => exact Nat.le_refl _
  | cons t ts ih =>
    have hstep := timers_advance_sound_step t s
    have := ih (timers_advance t s)
    simp only [timers_run, List.foldl_cons] at *
    omega

/-- Claim C9: over any sequence of steps (each with an arbitrary outcome of
the wall-clock 60 Hz test), the timers never increase — in particular never
wrap below 0 — and each single step decrements each timer by at most 1 and
only when it is strictly positive. -/
theorem c9_timers_saturate (ticks : List Bool) (s : Chip8State) :
    (timers_run ticks s).delay ≤ s.delay ∧
    (timers_run ticks s).sound ≤ s.sound ∧
    (∀ t : Bool, ∀ s' : Chip8State,
      ((timers_advance t s').delay = s'.delay ∨
        (0 < s'.delay ∧ (timers_advance t s').delay + 1 = s'.delay)) ∧
      ((timers_advance t s').sound = s'.sound ∨
        (0 < s'.sound ∧ (timers_advance t s').sound + 1 = s'.sound))) :=
  ⟨timers_run_delay_le ticks s, timers_run_sound_le ticks s,
   fun t s' => ⟨timers_advance_delay_step t s', timers_advance_sound_step t s'⟩⟩

/-- Claim C10: when the decoded `x` field is 15, the arithmetic and shift
instructions of family 8 leave register 15 holding exactly the flag value,
which is always 0 or 1, because `update_flag` runs after the destination
write. -/
theorem c10_flag_overwrites_result (f y : Nat) (s : Chip8State)
    (hy : y < 16) (hv15 : s.v 15 < 256) (hvy : s.v y < 256) :
    ((exec_8xy4 15 y s).v 15 = if s.v 15 + s.v y > 255 then 1 else 0) ∧
    (exec_8xy4 15 y s).v 15 ≤ 1 ∧
    ((exec_8xy5 15 y s).v 15 = if s.v y < s.v 15 then 1 else 0) ∧
    (exec_8xy5 15 y s).v 15 ≤ 1 ∧
    ((exec_8xy7 15 y s).v 15 = if s.v 15 < s.v y then 1 else 0) ∧
    (exec_8xy7 15 y s).v 15 ≤ 1 ∧
    ((exec_8xy6 f 15 y s).v 15 = (if hasFlag f shift_legacy then s.v y else s.v 15) % 2) ∧
    (exec_8xy6 f 15 y s).v 15 ≤ 1 ∧
    ((exec_8xye f 15 y s).v 15 = (if hasFlag f shift_legacy then s.v y else s.v 15) / 128) ∧
    (exec_8xye f 15 y s).v 15 ≤ 1 := by
  have hcond5 : ((s.v 15 : Int) - (s.v y : Int) > 0) = (s.v y < s.v 15) := by
    apply propext; omega
  have hcond7 : ((s.v y : Int) - (s.v 15 : Int) > 0) = (s.v 15 < s.v y) := by
    apply propext; omega
  have hdiv : ∀ m : Nat, m < 256 → (m >>> 7) &&& 1 = m / 128 := by
    intro m hm
    rw [Nat.shiftRight_eq_div_pow]
    have : m / 2 ^ 7 < 2 := by omega
    rw [Nat.and_one_is_mod]
    omega
  have h4 : (exec_8xy4 15 y s).v 15 = if s.v 15 + s.v y > 255 then 1 else 0 := by
    simp [exec_8xy4, setV, update_flag, Function.update_apply]
  have h5 : (exec_8xy5 15 y s).v 15 = if s.v y < s.v 15 then 1 else 0 := by
    simp [exec_8xy5, setV, update_flag, Function.update_apply, hcond5]
  have h7 : (exec_8xy7 15 y s).v 15 = if s.v 15 < s.v y then 1 else 0 := by
    simp [exec_8xy7, setV, update_flag, Function.update_apply, hcond7]
  have h6 : (exec_8xy6 f 15 y s).v 15 =
      (if hasFlag f shift_legacy then s.v y else s.v 15) % 2 := by
    by_cases hleg : hasFlag f shift_legacy <;>
      simp [exec_8xy6, setV, update_flag, Function.update_apply, hleg, Nat.and_one_is_mod]
  have he : (exec_8xye f 15 y s).v 15 =
      (if hasFlag f shift_legacy then s.v y else s.v 15) / 128 := by
    by_cases hleg : hasFlag f shift_legacy <;>
      simp only [exec_8xye, setV, update_flag, Function.update_apply, hleg,
        if_true, if_false, Function.update_same] <;>
      simp [Function.update_apply, hdiv _ hvy, hdiv _ hv15]
  have hsrc : (if hasFlag f shift_legacy then s.v y else s.v 15) < 256 := by
    split <;> assumption
  refine ⟨h4, ?_, h5, ?_, h7, ?_, h6, ?_, he, ?_⟩
  · rw [h4]; split <;> omega
  · rw [h5]; split <;> omega
  · rw [h7]; split <;> omega
  · rw [h6]; omega
  · rw [he]; omega

/-- Witness for C10: the flag-overwrite theorem at the all-zero state. -/
theorem c10_witness :
    (exec_8xy4 15 0 zeroState).v 15 =
      if zeroState.v 15 + zeroState.v 0 > 255 then 1 else 0 :=
  (c10_flag_overwrites_result 0 0 zeroState (by decide) (by decide) (by decide)).1


theorem xor_le_one {a b : Nat} (ha : a ≤ 1) (hb : b ≤ 1) : a ^^^ b ≤ 1 := by
  interval_cases a <;> interval_cases b <;> decide

theorem list_any_congr {α : Type} {p q : α → Bool} {l : List α}
    (h : ∀ a ∈ l, p a = q a) : l.any p = l.any q := by
  induction l with
  | nil => rfl
  | cons a t ih =>
    simp only [List.any_cons]
    rw [h a (List.mem_cons_self a t), ih fun b hb => h b (List.mem_cons_of_mem a hb)]

theorem cellIndex_eq (coordyy coordx x' : Nat) :
    cellIndex coordyy coordx x' = coordyy * 64 + (coordx + x') % 64 := by
  simp [cellIndex, c_displayWidth, and_63_eq_mod]

theorem rowCoord_eq (coordy y' : Nat) : rowCoord coordy y' = (coordy + y') % 32 := by
  simp [rowCoord, c_displayHeight, and_31_eq_mod]

theorem cellIndex_div (coordyy coordx x' : Nat) :
    cellIndex coordyy coordx x' / 64 = coordyy := by
  rw [cellIndex_eq]
  omega

theorem cellIndex_inj (coordyy coordx : Nat) {a b : Nat} (ha : a < 8) (hb : b < 8)
    (hne : a ≠ b) : cellIndex coordyy coordx a ≠ cellIndex coordyy coordx b := by
  rw [cellIndex_eq, cellIndex_eq]
  omega

theorem pairwise_cells (coordyy coordx : Nat) :
    (List.range 8).Pairwise
      (fun a b => cellIndex coordyy coordx a ≠ cellIndex coordyy coordx b) := by
  refine (List.pairwise_lt_range 8).imp_of_mem ?_
  intro a b ha hb hab
  exact cellIndex_inj coordyy coordx (List.mem_range.mp ha) (List.mem_range.mp hb)
    (Nat.ne_of_lt hab)

theorem pairwise_rows (coordy n : Nat) (hn : n ≤ 15) :
    (List.range n).Pairwise (fun a b => rowCoord coordy a ≠ rowCoord coordy b) := by
  refine (List.pairwise_lt_range n).imp_of_mem ?_
  intro a b ha hb hab
  have ha' := List.mem_range.mp ha
  have hb' := List.mem_range.mp hb
  rw [rowCoord_eq, rowCoord_eq]
  omega

theorem rowHit_div {f coordyy coordx sprite idx : Nat}
    (h : rowHit f coordyy coordx sprite idx = true) : idx / 64 = coordyy := by
  simp only [rowHit, List.any_eq_true, List.mem_range, Bool.and_eq_true,
    decide_eq_true_eq] at h
  obtain ⟨x', hx', ⟨hcu, hcell⟩, hbit⟩ := h
  rw [← hcell]
  exact cellIndex_div coordyy coordx x'

theorem cellFold_disp (f coordyy coordx sprite : Nat) (L : List Nat)
    (acc : (Nat → Nat) × Bool) (idx : Nat)
    (hL : L.Pairwise (fun a b => cellIndex coordyy coordx a ≠ cellIndex coordyy coordx b)) :
    (L.foldl (drawCellStep f coordyy coordx sprite) acc).1 idx =
      if (L.any fun x' => colUsed f coordx x' &&
            decide (cellIndex coordyy coordx x' = idx) && spriteBit sprite x') = true
      then acc.1 idx ^^^ 1 else acc.1 idx := by
  induction L generalizing acc with
  | nil => simp
  | cons a t ih =>
    have hpair := List.pairwise_cons.mp hL
    by_cases hskip : (hasFlag f draw_legacy && decide (coordx + a > c_displayWidth)) = true
    · have hcu : colUsed f coordx a = false := by simp [colUsed, hskip]
      simp only [List.foldl_cons, List.any_cons]
      rw [show drawCellStep f coordyy coordx sprite acc a = acc by
        simp [drawCellStep, hskip]]
      rw [ih acc hpair.2]
      simp [hcu]
    · have hc : (hasFlag f draw_legacy && decide (coordx + a > c_displayWidth)) = false := by
        revert hskip
        cases hasFlag f draw_legacy && decide (coordx + a > c_displayWidth) <;> simp
      have hcu : colUsed f coordx a = true := by simp [colUsed, hc]
      have hstep : drawCellStep f coordyy coordx sprite acc a =
          (Function.update acc.1 (cellIndex coordyy coordx a)
             (acc.1 (cellIndex coordyy coordx a) ^^^
               (if spriteBit sprite a then 1 else 0)),
           acc.2 || (decide (acc.1 (cellIndex coordyy coordx a) ≠ 0) &&
             decide (acc.1 (cellIndex coordyy coordx a) ^^^
               (if spriteBit sprite a then 1 else 0) = 0))) := by
        simp [drawCellStep, hc]
      simp only [List.foldl_cons, List.any_cons]
      rw [hstep, ih _ hpair.2]
      by_cases hidx : cellIndex coordyy coordx a = idx
      · subst hidx
        have hT : (t.any fun x' => colUsed f coordx x' &&
            decide (cellIndex coordyy coordx x' = cellIndex coordyy coordx a) &&
            spriteBit sprite x') = false := by
          simp only [List.any_eq_false]
          intro x'' hx''
          simp [Ne.symm (hpair.1 x'' hx'')]
        by_cases hbit : spriteBit sprite a = true <;>
          simp [hbit, hcu, hT, Function.update_same, Nat.xor_zero]
      · have hupd : Function.update acc.1 (cellIndex coordyy coordx a)
            (acc.1 (cellIndex coordyy coordx a) ^^^
              (if spriteBit sprite a then 1 else 0)) idx = acc.1 idx :=
          Function.update_noteq (Ne.symm hidx) _ _
        simp [hupd, hidx]

theorem cellFold_flag (f coordyy coordx sprite : Nat) (L : List Nat)
    (acc : (Nat → Nat) × Bool)
    (hL : L.Pairwise (fun a b => cellIndex coordyy coordx a ≠ cellIndex coordyy coordx b))
    (hd : ∀ i, acc.1 i ≤ 1) :
    (L.foldl (drawCellStep f coordyy coordx sprite) acc).2 =
      (acc.2 || L.any fun x' => colUsed f coordx x' && spriteBit sprite x' &&
        decide (acc.1 (cellIndex coordyy coordx x') = 1)) := by
  induction L generalizing acc with
  | nil => simp
  | cons a t ih =>
    have hpair := List.pairwise_cons.mp hL
    by_cases hskip : (hasFlag f draw_legacy && decide (coordx + a > c_displayWidth)) = true
    · have hcu : colUsed f coordx a = false := by simp [colUsed, hskip]
      simp only [List.foldl_cons, List.any_cons]
      rw [show drawCellStep f coordyy coordx sprite acc a = acc by
        simp [drawCellStep, hskip]]
      rw [ih acc hpair.2 hd]
      simp [hcu]
    · have hc : (hasFlag f draw_legacy && decide (coordx + a > c_displayWidth)) = false := by
        revert hskip
        cases hasFlag f draw_legacy && decide (coordx + a > c_displayWidth) <;> simp
      have hcu : colUsed f coordx a = true := by simp [colUsed, hc]
      have hstep : drawCellStep f coordyy coordx sprite acc a =
          (Function.update acc.1 (cellIndex coordyy coordx a)
             (acc.1 (cellIndex coordyy coordx a) ^^^
               (if spriteBit sprite a then 1 else 0)),
           acc.2 || (decide (acc.1 (cellIndex coordyy coordx a) ≠ 0) &&
             decide (acc.1 (cellIndex coordyy coordx a) ^^^
               (if spriteBit sprite a then 1 else 0) = 0))) := by
        simp [drawCellStep, hc]
      have h01 : acc.1 (cellIndex coordyy coordx a) = 0 ∨
          acc.1 (cellIndex coordyy coordx a) = 1 := by
        have := hd (cellIndex coordyy coordx a)
        omega
      have hcontrib : (decide (acc.1 (cellIndex coordyy coordx a) ≠ 0) &&
          decide (acc.1 (cellIndex coordyy coordx a) ^^^
            (if spriteBit sprite a then 1 else 0) = 0)) =
          (spriteBit sprite a && decide (acc.1 (cellIndex coordyy coordx a) = 1)) := by
        by_cases hbit : spriteBit sprite a = true <;>
          rcases h01 with h|h <;> simp [hbit, h, Nat.xor_zero]
      have hd' : ∀ i, (Function.update acc.1 (cellIndex coordyy coordx a)
          (acc.1 (cellIndex coordyy coordx a) ^^^
            (if spriteBit sprite a then 1 else 0))) i ≤ 1 := by
        intro i
        by_cases hi : i = cellIndex coordyy coordx a
        · subst hi
          rw [Function.update_same]
          exact xor_le_one (hd _) (by split <;> decide)
        · rw [Function.update_noteq hi]
          exact hd i
      simp only [List.foldl_cons, List.any_cons]
      rw [hstep, ih _ hpair.2 hd']
      have hcongr : (t.any fun x' => colUsed f coordx x' && spriteBit sprite x' &&
          decide ((Function.update acc.1 (cellIndex coordyy coordx a)
            (acc.1 (cellIndex coordyy coordx a) ^^^
              (if spriteBit sprite a then 1 else 0)))
            (cellIndex coordyy coordx x') = 1)) =
          (t.any fun x' => colUsed f coordx x' && spriteBit sprite x' &&
            decide (acc.1 (cellIndex coordyy coordx x') = 1)) := by
        refine list_any_congr ?_
        intro x'' hx''
        rw [Function.update_noteq (Ne.symm (hpair.1 x'' hx''))]
      rw [hcongr, hcontrib, hcu]
      simp [Bool.or_assoc]

theorem cellRow_disp (f coordyy coordx sprite : Nat) (acc : (Nat → Nat) × Bool)
    (idx : Nat) :
    ((List.range 8).foldl (drawCellStep f coordyy coordx sprite) acc).1 idx =
      if rowHit f coordyy coordx sprite idx = true
      then acc.1 idx ^^^ 1 else acc.1 idx :=
  cellFold_disp f coordyy coordx sprite (List.range 8) acc idx
    (pairwise_cells coordyy coordx)

theorem cellRow_flag (f coordyy coordx sprite : Nat) (acc : (Nat → Nat) × Bool)
    (hd : ∀ i, acc.1 i ≤ 1) :
    ((List.range 8).foldl (drawCellStep f coordyy coordx sprite) acc).2 =
      (acc.2 || rowCollide f coordyy coordx sprite acc.1) :=
  cellFold_flag f coordyy coordx sprite (List.range 8) acc
    (pairwise_cells coordyy coordx) hd

theorem rowFold_disp (f coordx coordy index : Nat) (mem : Nat → Nat) (L : List Nat)
    (acc : (Nat → Nat) × Bool) (idx : Nat)
    (hL : L.Pairwise (fun a b => rowCoord coordy a ≠ rowCoord coordy b)) :
    (L.foldl (drawRowStep f coordx coordy index mem) acc).1 idx =
      if (L.any fun y' => rowUsed f coordy y' &&
            rowHit f (rowCoord coordy y') coordx (mem (index + y')) idx) = true
      then acc.1 idx ^^^ 1 else acc.1 idx := by
  induction L generalizing acc with
  | nil => simp
  | cons a t ih =>
    have hpair := List.pairwise_cons.mp hL
    by_cases hskip : (hasFlag f draw_legacy && decide (coordy + a > c_displayHeight)) = true
    · have hru : rowUsed f coordy a = false := by simp [rowUsed, hskip]
      simp only [List.foldl_cons, List.any_cons]
      rw [show drawRowStep f coordx coordy index mem acc a = acc by
        simp [drawRowStep, hskip]]
      rw [ih acc hpair.2]
      simp [hru]
    · have hc : (hasFlag f draw_legacy && decide (coordy + a > c_displayHeight)) = false := by
        revert hskip
        cases hasFlag f draw_legacy && decide (coordy + a > c_displayHeight) <;> simp
      have hru : rowUsed f coordy a = true := by simp [rowUsed, hc]
      have hstep : drawRowStep f coordx coordy index mem acc a =
          (List.range 8).foldl
            (drawCellStep f (rowCoord coordy a) coordx (mem (index + a))) acc := by
        simp [drawRowStep, hc]
      simp only [List.foldl_cons, List.any_cons]
      rw [hstep, ih _ hpair.2]
      have hin : ((List.range 8).foldl
          (drawCellStep f (rowCoord coordy a) coordx (mem (index + a))) acc).1 idx =
          if rowHit f (rowCoord coordy a) coordx (mem (index + a)) idx = true
          then acc.1 idx ^^^ 1 else acc.1 idx :=
        cellRow_disp f (rowCoord coordy a) coordx (mem (index + a)) acc idx
      by_cases hhit : rowHit f (rowCoord coordy a) coordx (mem (index + a)) idx = true
      · have hdiv := rowHit_div hhit
        have hT : (t.any fun y' => rowUsed f coordy y' &&
            rowHit f (rowCoord coordy y') coordx (mem (index + y')) idx) = false := by
          simp only [List.any_eq_false]
          intro y'' hy''
          by_cases hh : rowHit f (rowCoord coordy y'') coordx (mem (index + y'')) idx = true
          · exact absurd ((rowHit_div hh).symm.trans hdiv) (Ne.symm (hpair.1 y'' hy''))
          · simp [hh]
        simp [hT, hin, hhit, hru]
      · have hzero : ((List.range 8).foldl
            (drawCellStep f (rowCoord coordy a) coordx (mem (index + a))) acc).1 idx =
            acc.1 idx := by
          rw [hin]
          simp [hhit]
        simp [hzero, hhit]

theorem rowFold_flag (f coordx coordy index : Nat) (mem : Nat → Nat) (L : List Nat)
    (acc : (Nat → Nat) × Bool)
    (hL : L.Pairwise (fun a b => rowCoord coordy a ≠ rowCoord coordy b))
    (hd : ∀ i, acc.1 i ≤ 1) :
    (L.foldl (drawRowStep f coordx coordy index mem) acc).2 =
      (acc.2 || L.any fun y' => rowUsed f coordy y' &&
        rowCollide f (rowCoord coordy y') coordx (mem (index + y')) acc.1) := by
  induction L generalizing acc with
  | nil => simp
  | cons a t ih =>
    have hpair := List.pairwise_cons.mp hL
    by_cases hskip : (hasFlag f draw_legacy && decide (coordy + a > c_displayHeight)) = true
    · have hru : rowUsed f coordy a = false := by simp [rowUsed, hskip]
      simp only [List.foldl_cons, List.any_cons]
      rw [show drawRowStep f coordx coordy index mem acc a = acc by
        simp [drawRowStep, hskip]]
      rw [ih acc hpair.2 hd]
      simp [hru]
    · have hc : (hasFlag f draw_legacy && decide (coordy + a > c_displayHeight)) = false := by
        revert hskip
        cases hasFlag f draw_legacy && decide (coordy + a > c_displayHeight) <;> simp
      have hru : rowUsed f coordy a = true := by simp [rowUsed, hc]
      have hstep : drawRowStep f coordx coordy index mem acc a =
          (List.range 8).foldl
            (drawCellStep f (rowCoord coordy a) coordx (mem (index + a))) acc := by
        simp [drawRowStep, hc]
      have hin1 : ∀ j, ((List.range 8).foldl
          (drawCellStep f (rowCoord coordy a) coordx (mem (index + a))) acc).1 j =
          if rowHit f (rowCoord coordy a) coordx (mem (index + a)) j = true
          then acc.1 j ^^^ 1 else acc.1 j :=
        cellRow_disp f (rowCoord coordy a) coordx (mem (index + a)) acc
      have hin2 : ((List.range 8).foldl
          (drawCellStep f (rowCoord coordy a) coordx (mem (index + a))) acc).2 =
          (acc.2 || rowCollide f (rowCoord coordy a) coordx (mem (index + a)) acc.1) :=
        cellRow_flag f (rowCoord coordy a) coordx (mem (index + a)) acc hd
      have hd' : ∀ i, ((List.range 8).foldl
          (drawCellStep f (rowCoord coordy a) coordx (mem (index + a))) acc).1 i ≤ 1 := by
        intro i
        rw [hin1 i]
        split
        · exact xor_le_one (hd i) (by decide)
        · exact hd i
      simp only [List.foldl_cons, List.any_cons]
      rw [hstep, ih _ hpair.2 hd']
      have hcongr : (t.any fun y' => rowUsed f coordy y' &&
          rowCollide f (rowCoord coordy y') coordx (mem (index + y'))
            ((List.range 8).foldl
              (drawCellStep f (rowCoord coordy a) coordx (mem (index + a))) acc).1) =
          (t.any fun y' => rowUsed f coordy y' &&
            rowCollide f (rowCoord coordy y') coordx (mem (index + y')) acc.1) := by
        refine list_any_congr ?_
        intro y'' hy''
        have hcoll : rowCollide f (rowCoord coordy y'') coordx (mem (index + y''))
            ((List.range 8).foldl
              (drawCellStep f (rowCoord coordy a) coordx (mem (index + a))) acc).1 =
            rowCollide f (rowCoord coordy y'') coordx (mem (index + y'')) acc.1 := by
          unfold rowCollide
          refine list_any_congr ?_
          intro x'' hx''
          have hcell : ((List.range 8).foldl
              (drawCellStep f (rowCoord coordy a) coordx (mem (index + a))) acc).1
                (cellIndex (rowCoord coordy y'') coordx x'') =
              acc.1 (cellIndex (rowCoord coordy y'') coordx x'') := by
            rw [hin1]
            have hnothit : rowHit f (rowCoord coordy a) coordx (mem (index + a))
                (cellIndex (rowCoord coordy y'') coordx x'') ≠ true := by
              intro hh
              have h1 := rowHit_div hh
              have h2 := cellIndex_div (rowCoord coordy y'') coordx x''
              exact hpair.1 y'' hy'' (h1.symm.trans h2)
            simp [hnothit]
          rw [hcell]
        rw [hcoll]
      rw [hcongr, hin2, hru]
      simp [Bool.or_assoc]

theorem execDraw_disp_char (f x y n : Nat) (s : Chip8State) (hn : n ≤ 15) (idx : Nat) :
    (execDraw f x y n s).disp idx =
      if drawHit f (drawCoordX s x) (drawCoordY s y) s.index n s.mem idx = true
      then s.disp idx ^^^ 1 else s.disp idx := by
  show ((List.range n).foldl
      (drawRowStep f (drawCoordX s x) (drawCoordY s y) s.index s.mem) (s.disp, false)).1 idx = _
  rw [rowFold_disp f (drawCoordX s x) (drawCoordY s y) s.index s.mem (List.range n)
    (s.disp, false) idx (pairwise_rows (drawCoordY s y) n hn)]
  rfl

theorem execDraw_flag_char (f x y n : Nat) (s : Chip8State) (hn : n ≤ 15)
    (hd : ∀ i, s.disp i ≤ 1) :
    (execDraw f x y n s).v 15 =
      if drawCollide f (drawCoordX s x) (drawCoordY s y) s.index n s.mem s.disp = true
      then 1 else 0 := by
  have hv : (execDraw f x y n s).v 15 =
      if ((List.range n).foldl
        (drawRowStep f (drawCoordX s x) (drawCoordY s y) s.index s.mem)
        (s.disp, false)).2 = true then 1 else 0 := by
    simp [execDraw, update_flag, Function.update_same]
  rw [hv, rowFold_flag f (drawCoordX s x) (drawCoordY s y) s.index s.mem (List.range n)
    (s.disp, false) (pairwise_rows (drawCoordY s y) n hn) hd]
  simp [drawCollide]

theorem execDraw_v_ne (f x y n : Nat) (s : Chip8State) {i : Nat} (hi : i ≠ 15) :
    (execDraw f x y n s).v i = s.v i := by
  simp [execDraw, update_flag, Function.update_apply, hi]

theorem execDraw_mem (f x y n : Nat) (s : Chip8State) :
    (execDraw f x y n s).mem = s.mem := rfl

theorem execDraw_index (f x y n : Nat) (s : Chip8State) :
    (execDraw f x y n s).index = s.index := rfl

theorem execDraw_disp_le (f x y n : Nat) (s : Chip8State) (hn : n ≤ 15)
    (hd : ∀ i, s.disp i ≤ 1) : ∀ i, (execDraw f x y n s).disp i ≤ 1 := by
  intro i
  rw [execDraw_disp_char f x y n s hn i]
  split
  · exact xor_le_one (hd i) (by decide)
  · exact hd i

theorem drawCollide_iff (f cx cy index n : Nat) (mem d : Nat → Nat) :
    drawCollide f cx cy index n mem d = true ↔
      ∃ idx, drawHit f cx cy index n mem idx = true ∧ d idx = 1 := by
  constructor
  · intro h
    simp only [drawCollide, rowCollide, List.any_eq_true, List.mem_range,
      Bool.and_eq_true, decide_eq_true_eq] at h
    obtain ⟨y', hy', hru, x', hx', ⟨hcu, hbit⟩, hone⟩ := h
    refine ⟨cellIndex (rowCoord cy y') cx x', ?_, hone⟩
    simp only [drawHit, rowHit, List.any_eq_true, List.mem_range, Bool.and_eq_true,
      decide_eq_true_eq]
    exact ⟨y', hy', hru, x', hx', ⟨hcu, rfl⟩, hbit⟩
  · rintro ⟨idx, hhit, hone⟩
    simp only [drawHit, rowHit, List.any_eq_true, List.mem_range, Bool.and_eq_true,
      decide_eq_true_eq] at hhit
    obtain ⟨y', hy', hru, x', hx', ⟨hcu, hcell⟩, hbit⟩ := hhit
    simp only [drawCollide, rowCollide, List.any_eq_true, List.mem_range,
      Bool.and_eq_true, decide_eq_true_eq]
    exact ⟨y', hy', hru, x', hx', ⟨hcu, hbit⟩, by rw [hcell]; exact hone⟩

/-- Claim C3: with the draw-legacy flag set, the draw instruction `0xDXYN`
changes a display cell exactly when some sprite row and column reach it
without their computed coordinates exceeding the display bounds (32 for
rows, 64 for columns); rows and columns beyond those bounds are skipped and
contribute nothing, while the remaining ones land at the coordinate wrapped
modulo the display size. -/
theorem c3_draw_legacy_clips (f x y n : Nat) (s : Chip8State)
    (hleg : hasFlag f draw_legacy = true) (hn : n ≤ 15) (idx : Nat) :
    (execDraw f x y n s).disp idx =
      if clippedHitSpec (drawCoordX s x) (drawCoordY s y) s.index n s.mem idx = true
      then s.disp idx ^^^ 1 else s.disp idx := by
  rw [execDraw_disp_char f x y n s hn idx]
  have hcong : drawHit f (drawCoordX s x) (drawCoordY s y) s.index n s.mem idx
      = clippedHitSpec (drawCoordX s x) (drawCoordY s y) s.index n s.mem idx := by
    unfold drawHit clippedHitSpec
    refine list_any_congr ?_
    intro y' hy'
    have hrow : rowUsed f (drawCoordY s y) y'
        = decide (drawCoordY s y + y' ≤ c_displayHeight) := by
      simp only [rowUsed, hleg, Bool.true_and]
      by_cases h : drawCoordY s y + y' > c_displayHeight <;> simp [h] <;> omega
    rw [hrow]
    congr 1
    unfold rowHit
    refine list_any_congr ?_
    intro x' hx'
    have hcol : colUsed f (drawCoordX s x) x'
        = decide (drawCoordX s x + x' ≤ c_displayWidth) := by
      simp only [colUsed, hleg, Bool.true_and]
      by_cases h : drawCoordX s x + x' > c_displayWidth <;> simp [h] <;> omega
    have hcell : decide (cellIndex (rowCoord (drawCoordY s y) y') (drawCoordX s x) x' = idx)
        = decide ((drawCoordY s y + y') % c_displayHeight * c_displayWidth
            + (drawCoordX s x + x') % c_displayWidth = idx) := by
      apply decide_eq_decide.mpr
      rw [cellIndex_eq, rowCoord_eq]
      simp [c_displayWidth, c_displayHeight]
    rw [hcol, hcell]
  rw [hcong]

/-- Witness for C3: the clipping theorem applied with the original preset at
a concrete state whose sprite crosses the right display edge. -/
theorem c3_witness :
    (execDraw chip8_original 0 1 1 c3_state).disp 60 =
      if clippedHitSpec (drawCoordX c3_state 0) (drawCoordY c3_state 1) c3_state.index 1
          c3_state.mem 60 = true
      then c3_state.disp 60 ^^^ 1 else c3_state.disp 60 :=
  c3_draw_legacy_clips chip8_original 0 1 1 c3_state (by decide) (by decide) 60

/-- Claim C6: the draw instruction sets the collision flag to 1 iff some
display cell went from 1 to 0 during the blit; the flag is always 0 or 1;
drawing the same sprite twice at the same position (coordinate registers
distinct from the flag register, so the position is identical on both draws)
restores the display; and the second draw's collision flag is 1 whenever the
first draw turned any cell on. -/
theorem c6_draw_collision_xor (f x y n : Nat) (s : Chip8State)
    (hx : x ≠ 15) (hy : y ≠ 15) (hn : n ≤ 15) (hd : ∀ i, s.disp i ≤ 1) :
    ((execDraw f x y n s).v 15 = 1 ↔
      ∃ idx, s.disp idx = 1 ∧ (execDraw f x y n s).disp idx = 0) ∧
    (execDraw f x y n s).v 15 ≤ 1 ∧
    (∀ idx, (execDraw f x y n (execDraw f x y n s)).disp idx = s.disp idx) ∧
    ((∃ idx, s.disp idx = 0 ∧ (execDraw f x y n s).disp idx = 1) →
      (execDraw f x y n (execDraw f x y n s)).v 15 = 1) := by
  have hchar1 : ∀ j, (execDraw f x y n s).disp j =
      if drawHit f (drawCoordX s x) (drawCoordY s y) s.index n s.mem j = true
      then s.disp j ^^^ 1 else s.disp j := execDraw_disp_char f x y n s hn
  have hflag1 := execDraw_flag_char f x y n s hn hd
  have hd1 := execDraw_disp_le f x y n s hn hd
  have hcx : drawCoordX (execDraw f x y n s) x = drawCoordX s x := by
    simp [drawCoordX, execDraw_v_ne f x y n s hx]
  have hcy : drawCoordY (execDraw f x y n s) y = drawCoordY s y := by
    simp [drawCoordY, execDraw_v_ne f x y n s hy]
  have hchar2 : ∀ j, (execDraw f x y n (execDraw f x y n s)).disp j =
      if drawHit f (drawCoordX s x) (drawCoordY s y) s.index n s.mem j = true
      then (execDraw f x y n s).disp j ^^^ 1 else (execDraw f x y n s).disp j := by
    intro j
    have h := execDraw_disp_char f x y n (execDraw f x y n s) hn j
    rwa [hcx, hcy, execDraw_mem, execDraw_index] at h
  have hflag2 : (execDraw f x y n (execDraw f x y n s)).v 15 =
      if drawCollide f (drawCoordX s x) (drawCoordY s y) s.index n s.mem
          (execDraw f x y n s).disp = true then 1 else 0 := by
    have h := execDraw_flag_char f x y n (execDraw f x y n s) hn hd1
    rwa [hcx, hcy, execDraw_mem, execDraw_index] at h
  have key : drawCollide f (drawCoordX s x) (drawCoordY s y) s.index n s.mem s.disp = true ↔
      ∃ idx, s.disp idx = 1 ∧ (execDraw f x y n s).disp idx = 0 := by
    rw [drawCollide_iff]
    constructor
    · rintro ⟨idx, hhit, hone⟩
      refine ⟨idx, hone, ?_⟩
      rw [hchar1 idx, if_pos hhit, hone]
      exact Nat.xor_self 1
    · rintro ⟨idx, hone, hzero⟩
      refine ⟨idx, ?_, hone⟩
      by_contra hh
      rw [hchar1 idx, if_neg hh, hone] at hzero
      exact absurd hzero one_ne_zero
  refine ⟨?_, ?_, ?_, ?_⟩
  · rw [hflag1]
    constructor
    · intro h1
      cases hcoll : drawCollide f (drawCoordX s x) (drawCoordY s y) s.index n s.mem s.disp with
      | false => rw [hcoll] at h1; simp at h1
      | true => exact key.mp hcoll
    · intro hex
      rw [key.mpr hex]
      simp
  · rw [hflag1]
    split
    · omega
    · omega
  · intro j
    rw [hchar2 j, hchar1 j]
    by_cases hhit : drawHit f (drawCoordX s x) (drawCoordY s y) s.index n s.mem j = true
    · simp only [hhit, if_true]
      exact Nat.xor_cancel_right 1 (s.disp j)
    · simp [hhit]
  · rintro ⟨idx, hzero, hone⟩
    have hhit : drawHit f (drawCoordX s x) (drawCoordY s y) s.index n s.mem idx = true := by
      by_contra hh
      rw [hchar1 idx, if_neg hh, hzero] at hone
      exact absurd hone.symm one_ne_zero
    rw [hflag2]
    rw [if_pos ((drawCollide_iff f (drawCoordX s x) (drawCoordY s y) s.index n s.mem
      (execDraw f x y n s).disp).mpr ⟨idx, hhit, hone⟩)]

/-- Witness for C6: the collision/XOR theorem applied at a concrete blank
display with a one-row sprite. -/
theorem c6_witness :
    (execDraw 0 0 1 1 (execDraw 0 0 1 1 c6_state)).disp 0 = c6_state.disp 0 :=
  (c6_draw_collision_xor 0 0 1 1 c6_state (by decide) (by decide) (by decide)
    (fun _ => Nat.zero_le 1)).2.2.1 0
